import Mathlib

/-
Verification of the keyleds render loop
(src/keyledsd/src/keyledsd/RenderLoop.cxx).

The development shallowly embeds the RenderTarget buffer layout, the
RenderLoop render tick, the initial device-state read, and the outer run
control loop. Machine integers (std::size_t) are modelled as Nat with an
explicit reduction modulo 2^64 where wrap-around matters. Device memory
returned by posix_memalign is modelled as an arbitrary function from flat
cell indices to colors, so that the absence of initialisation is visible.
-/

namespace Keyleds

/-- Color value with four 8-bit channels, from keyledsd colors.h.
Modelled from the spec: colors.h is not part of the provided sources; the
spec describes the type as four 8-bit channels (red, green, blue, alpha)
compared by exact field equality, and RenderLoop.cxx statically asserts
that its size is 4 bytes. Channel values are kept as Nat; no channel
arithmetic occurs in RenderLoop.cxx. -/
structure RGBAColor where
  red : Nat
  green : Nat
  blue : Nat
  alpha : Nat
deriving DecidableEq, Repr, Inhabited

/-- Device color directive, from keyledsd Device.h.
Modelled from the spec: Device.h is not part of the provided sources; the
spec describes a directive as a (key identifier, red, green, blue) tuple,
matching the brace initialisation in RenderLoop.cxx line 158. The type has
no alpha field. -/
structure ColorDirective where
  id : Nat
  red : Nat
  green : Nat
  blue : Nat
deriving DecidableEq, Repr, Inhabited

/-- Key block of a device: an ordered list of key identifiers, the image of
Device KeyBlock keys() as consumed by RenderLoop.cxx. -/
structure KeyBlock where
  keys : List Nat
deriving DecidableEq, Repr, Inhabited

/-- Alignment in bytes of the render target allocation
(RenderTarget::align_bytes in RenderLoop.h). -/
def align_bytes : Nat := 32

/-- Size in bytes of one RGBAColor cell; RenderLoop.cxx statically asserts
sizeof(keyleds RGBAColor) == 4. -/
def sizeofRGBAColor : Nat := 4

/-- Number of color cells per alignment unit
(RenderTarget::align_colors = align_bytes / sizeof(RGBAColor) = 8). -/
def align_colors : Nat := align_bytes / sizeofRGBAColor

/-- Modulus of std::size_t arithmetic (64-bit). -/
def W64 : Nat := 2 ^ 64

/-- Translation of the file-static helper in RenderLoop.cxx lines 36-39:
align(value, alignment) = (value + alignment - 1) AND NOT (alignment - 1),
computed in std::size_t arithmetic. The bitwise complement of a value x
below 2^64 is (2^64 - 1) - x. -/
def align (value alignment : Nat) : Nat :=
  ((value + alignment - 1) % W64) &&& ((W64 - 1) - (alignment - 1) % W64)

/-- Rendering buffer for key colors (class RenderTarget in RenderLoop.cxx).
The colors field models the m_colors pointer: none models a null pointer,
some f models an owned allocation whose cell at flat index j holds f j.
The nbColors field models m_nbColors and blocks models m_blocks, each
block pointer represented by its flat cell offset into the allocation. -/
structure RenderTarget where
  colors : Option (Nat → RGBAColor)
  nbColors : Nat
  blocks : List Nat

/-- Total color count computed by the first constructor loop of
RenderTarget (RenderLoop.cxx lines 50-53): starting from an accumulator,
fold each block size through the align helper. -/
def RenderTarget.totalColors : Nat → List Nat → Nat
  | t, [] => t
  | t, n :: l => RenderTarget.totalColors (align (t + n) align_colors) l

/-- Block offsets computed by the second constructor loop of RenderTarget
(RenderLoop.cxx lines 60-64): push the running total as the block start,
then advance it through the align helper. -/
def RenderTarget.offsets : Nat → List Nat → List Nat
  | _, [] => []
  | t, n :: l => t :: RenderTarget.offsets (align (t + n) align_colors) l

/-- RenderTarget constructor (RenderLoop.cxx lines 43-65). The mem argument
models the contents of the memory returned by posix_memalign: the
constructor computes the total count and the block offsets but writes no
cell value, so the cells hold whatever the allocator handed back. -/
def mkRenderTarget (block_sizes : List Nat) (mem : Nat → RGBAColor) : RenderTarget :=
  { colors := some mem
    nbColors := RenderTarget.totalColors 0 block_sizes
    blocks := RenderTarget.offsets 0 block_sizes }

/-- Flat cell index of the (block, key) pair: block start offset plus key
index, the address arithmetic behind RenderTarget get. -/
def RenderTarget.cellIndex (t : RenderTarget) (bidx idx : Nat) : Nat :=
  t.blocks.getD bidx 0 + idx

/-- Cell content at a flat index. Reading through a null pointer is
undefined behaviour in the source; the model returns the default color. -/
def RenderTarget.cell (t : RenderTarget) (j : Nat) : RGBAColor :=
  match t.colors with
  | some f => f j
  | none => default

/-- RenderTarget get(bidx, idx): the color cell at the flat index of the
(block, key) pair. -/
def RenderTarget.get (t : RenderTarget) (bidx idx : Nat) : RGBAColor :=
  t.cell (t.cellIndex bidx idx)

/-- Write of one cell through RenderTarget get used as an lvalue, as in
RenderLoop::getDeviceState. Writing through a null pointer is undefined
behaviour in the source; the model leaves the target unchanged. -/
def RenderTarget.set (t : RenderTarget) (bidx idx : Nat) (c : RGBAColor) : RenderTarget :=
  match t.colors with
  | some f =>
    { t with colors := some (fun j => if j = t.cellIndex bidx idx then c else f j) }
  | none => t

/-- Move constructor of RenderTarget (RenderLoop.cxx lines 67-73): the new
object starts with a null m_colors, swaps it with the source, copies
m_nbColors and moves m_blocks out (leaving the source vector empty, as the
standard library move does). Returns (destination, moved-from source). -/
def moveConstruct (other : RenderTarget) : RenderTarget × RenderTarget :=
  ( { colors := other.colors, nbColors := other.nbColors, blocks := other.blocks },
    { colors := none, nbColors := other.nbColors, blocks := [] } )

/-- Destructor of RenderTarget (RenderLoop.cxx lines 75-78): free(m_colors).
Returns the allocation the destructor releases; none means it frees
nothing (free of a null pointer is a no-op). -/
def destructorFrees (t : RenderTarget) : Option (Nat → RGBAColor) :=
  t.colors

/-- Translation of keyleds swap (RenderLoop.cxx lines 80-85): exchange the
m_colors pointers, the m_nbColors counts and the m_blocks vectors of the
two targets. No cell value is copied. -/
def swapTargets (lhs rhs : RenderTarget) : RenderTarget × RenderTarget :=
  ( { colors := rhs.colors, nbColors := rhs.nbColors, blocks := rhs.blocks },
    { colors := lhs.colors, nbColors := lhs.nbColors, blocks := lhs.blocks } )

/-- A renderer, as called by RenderLoop render: given the elapsed time in
nanoseconds it repaints some cells of the buffer. -/
abbrev Renderer : Type := Nat → RenderTarget → RenderTarget

/-- Device interactions performed by one render tick: number of flush
calls, the setColors calls in order (block index with the directive list
passed), and number of commitColors calls. -/
structure DeviceCalls where
  flushes : Nat
  setColorsCalls : List (Nat × List ColorDirective)
  commits : Nat
deriving DecidableEq, Repr

/-- State of the render loop relevant to one tick: the m_state target
(current device state) and the m_buffer target (scratch buffer). -/
structure RenderState where
  state : RenderTarget
  buffer : RenderTarget

/-- Running all renderers in list order over the scratch buffer
(RenderLoop.cxx lines 139-141). -/
def runRenderers (nanosec : Nat) (renderers : List Renderer) (buffer : RenderTarget) : RenderTarget :=
  renderers.foldl (fun b r => r nanosec b) buffer

/-- Directive list built for one block by the inner diff loop of
RenderLoop render (RenderLoop.cxx lines 152-162): m_directives is cleared,
then for each key index in order, if the scratch color differs from the
current-state color, a directive with the key identifier and the red,
green and blue channels of the scratch color is appended. -/
def blockDirectives (state buffer : RenderTarget) (keys : List Nat) (bidx : Nat) : List ColorDirective :=
  (List.range keys.length).foldl
    (fun ds idx =>
      if buffer.get bidx idx ≠ state.get bidx idx then
        ds ++ [⟨keys.getD idx 0, (buffer.get bidx idx).red, (buffer.get bidx idx).green,
                (buffer.get bidx idx).blue⟩]
      else ds)
    []

/-- Translation of RenderLoop render (RenderLoop.cxx lines 132-175).
Returns the bool result of render, the new loop state and the device
calls of the tick. When the renderer list is non-empty the device is
flushed, each block with a non-empty directive list gets one setColors
call, hasChanges tracks whether any block produced directives, a single
commitColors follows if so, and the state and scratch targets are
exchanged through swapTargets. When the renderer list is empty nothing
touches the device. Render always returns true. -/
def render (blocks : List KeyBlock) (nanosec : Nat) (renderers : List Renderer)
    (rs : RenderState) : Bool × RenderState × DeviceCalls :=
  let hasRenderers := !renderers.isEmpty
  let buffer := runRenderers nanosec renderers rs.buffer
  if hasRenderers then
    let dc := (List.range blocks.length).foldl
      (fun (acc : List (Nat × List ColorDirective) × Bool) bidx =>
        if (blockDirectives rs.state buffer (blocks.getD bidx default).keys bidx).isEmpty
        then acc
        else (acc.1 ++ [(bidx, blockDirectives rs.state buffer (blocks.getD bidx default).keys bidx)],
              true))
      ([], false)
    let swapped := swapTargets rs.state buffer
    (true,
      { state := swapped.1, buffer := swapped.2 },
      { flushes := 1
        setColorsCalls := dc.1
        commits := if dc.2 then 1 else 0 })
  else
    (true, { state := rs.state, buffer := buffer }, { flushes := 0, setColorsCalls := [], commits := 0 })

/-- Empty device-call record: no flush, no setColors, no commitColors. -/
def noDeviceCalls : DeviceCalls :=
  { flushes := 0, setColorsCalls := [], commits := 0 }

/-- Declarative description of the directive list of one block, following
the claim wording: the directives are exactly the key indices, in order,
whose scratch color differs from the current-state color, each carrying
the key identifier and the red, green and blue channels of the scratch
color. Used to state the refinement theorem about blockDirectives. -/
def specBlockDirectives (state buffer : RenderTarget) (keys : List Nat) (bidx : Nat) : List ColorDirective :=
  ((List.range keys.length).filter
      (fun idx => decide (buffer.get bidx idx ≠ state.get bidx idx))).map
    (fun idx =>
      { id := keys.getD idx 0
        red := (buffer.get bidx idx).red
        green := (buffer.get bidx idx).green
        blue := (buffer.get bidx idx).blue })

/-- Declarative description of the setColors calls of one tick, following
the claim wording: one call per block whose directive list is non-empty,
in block order, carrying that directive list. -/
def specDirectiveCalls (blocks : List KeyBlock) (state buffer : RenderTarget) :
    List (Nat × List ColorDirective) :=
  (List.range blocks.length).filterMap (fun bidx =>
    if (specBlockDirectives state buffer (blocks.getD bidx default).keys bidx).isEmpty
    then none
    else some (bidx, specBlockDirectives state buffer (blocks.getD bidx default).keys bidx))

/-- Device color as returned by Device getColors.
Modelled from the spec: Device.h is not part of the provided sources; the
spec describes getColors as returning one color per key, and
RenderLoop::getDeviceState reads the red, green and blue channels of each
returned element. -/
structure DevColor where
  red : Nat
  green : Nat
  blue : Nat
deriving DecidableEq, Repr, Inhabited

/-- Inner loop of RenderLoop::getDeviceState (RenderLoop.cxx lines
214-220): for each index below the length of the color list returned by
getColors, copy the red, green and blue channels into the state cell at
(bidx, idx) and set the alpha channel to 255. -/
def writeBlockColors (bidx : Nat) (colors : List DevColor) (st : RenderTarget) : RenderTarget :=
  (List.range colors.length).foldl
    (fun st2 idx =>
      st2.set bidx idx
        ⟨(colors.getD idx default).red, (colors.getD idx default).green,
         (colors.getD idx default).blue, 255⟩)
    st

/-- Outer loop of RenderLoop::getDeviceState over a list of block
indices. -/
def writeAllBlocks (devColors : List (List DevColor)) (lb : List Nat) (t : RenderTarget) :
    RenderTarget :=
  lb.foldl (fun st bidx => writeBlockColors bidx (devColors.getD bidx []) st) t

/-- Translation of RenderLoop::getDeviceState (RenderLoop.cxx lines
207-222). The devColors argument models the responses of the getColors
calls, one list per device block, in block order. -/
def getDeviceState (blocks : List KeyBlock) (devColors : List (List DevColor))
    (state : RenderTarget) : RenderTarget :=
  writeAllBlocks devColors (List.range blocks.length) state

/-- Error discriminant of a device error. The errnoCode constructor models
a keyleds error with code KEYLEDS_ERROR_ERRNO together with the value the
global errno holds when run inspects it; timedout models
KEYLEDS_ERROR_TIMEDOUT; other models any other keyleds error code. -/
inductive ErrCode where
  | errnoCode (errnoVal : Nat)
  | timedout
  | other (tag : Nat)
deriving DecidableEq, Repr

/-- Device error (Device::error): an error discriminant plus the what()
description string. -/
structure DevError where
  code : ErrCode
  what : String
deriving DecidableEq, Repr

/-- Linux errno value ENODEV, the device-vanished condition tested by
RenderLoop::run. -/
def ENODEV : Nat := 19

/-- Outcome of one invocation of the periodic phase (AnimationLoop::run).
Modelled from the spec: AnimationLoop is not part of the provided sources;
the spec describes the periodic phase as a blocking invocation that either
returns normally, or exits by a propagated device error, or exits by some
other exception. -/
inductive PhaseOutcome where
  | completed
  | devError (e : DevError)
  | otherExn (msg : String)
deriving DecidableEq, Repr, Inhabited

/-- How the recovery loop of RenderLoop::run (lines 189-196) terminates:
normal break after a completed phase, a re-raised device error after a
failed resync, or any other exception propagating through. -/
inductive LoopExit where
  | normal
  | devErr (e : DevError)
  | exn (msg : String)
deriving DecidableEq, Repr

/-- Observable trace of the recovery loop: how it terminated (none when
the supplied outcome list was exhausted while the loop would continue),
how many resync calls it made, and how many times it started the periodic
phase. -/
structure LoopTrace where
  exit : Option LoopExit
  resyncs : Nat
  starts : Nat
deriving DecidableEq, Repr

/-- Translation of the recovery loop of RenderLoop::run (lines 189-196).
Each list entry gives the outcome of one periodic-phase invocation
together with the result resync would report if asked. A completed phase
breaks out of the loop. A device error is caught and resync is called: on
success the loop repeats, on failure the error is re-raised. Any other
exception is not caught here and propagates. -/
def loopPhase : List (PhaseOutcome × Bool) → LoopTrace
  | [] => ⟨none, 0, 0⟩
  | (o, r) :: rest =>
    match o with
    | .completed => ⟨some LoopExit.normal, 0, 1⟩
    | .otherExn m => ⟨some (LoopExit.exn m), 0, 1⟩
    | .devError e =>
      if r then
        let t := loopPhase rest
        ⟨t.exit, t.resyncs + 1, t.starts + 1⟩
      else
        ⟨some (LoopExit.devErr e), 1, 1⟩

/-- Log line produced by the ERROR macro for a device error in
RenderLoop::run. -/
def describeDevError (e : DevError) : String :=
  "device error: " ++ e.what

/-- Silent-exit test of RenderLoop::run (lines 198-199): the error code is
the errno-carrying code with errno ENODEV, or the timed-out code. -/
def isExpectedTerminal (e : DevError) : Bool :=
  match e.code with
  | .errnoCode v => v == ENODEV
  | .timedout => true
  | .other _ => false

/-- Observable trace of RenderLoop::run: the log lines it emits, whether
it reached the setTimeout(0) call, and the periodic-phase trace counters. -/
structure RunTrace where
  logs : List String
  timeoutDisabled : Bool
  phaseStarts : Nat
  resyncs : Nat
deriving DecidableEq, Repr

/-- Translation of RenderLoop::run (RenderLoop.cxx lines 177-205). The
initRead argument models the initial getDeviceState call: some e means it
raised the device error e, none means it succeeded. On a failed initial
read the error is logged and run returns at once, before setTimeout and
before the periodic phase. Otherwise the timeout is disabled and the
recovery loop runs; a normal exit logs nothing, a re-raised device error
is logged unless it is the expected terminal condition, and any other
exception is logged. The result is none only when the model ran out of
supplied phase outcomes; in every other case run returns normally to its
caller. -/
def runLoop (initRead : Option DevError) (rounds : List (PhaseOutcome × Bool)) :
    Option RunTrace :=
  match initRead with
  | some e => some ⟨[describeDevError e], false, 0, 0⟩
  | none =>
    let t := loopPhase rounds
    match t.exit with
    | none => none
    | some LoopExit.normal => some ⟨[], true, t.starts, t.resyncs⟩
    | some (LoopExit.devErr e) =>
      if isExpectedTerminal e then
        some ⟨[], true, t.starts, t.resyncs⟩
      else
        some ⟨[describeDevError e], true, t.starts, t.resyncs⟩
    | some (LoopExit.exn m) => some ⟨[m], true, t.starts, t.resyncs⟩

/-- Overflow-free specification of the align helper at the cell alignment
8 = align_colors: round up to the next multiple of 8. -/
def alignUp (v : Nat) : Nat :=
  8 * ((v + 7) / 8)

/-- Overflow-free specification of the total color count of the
RenderTarget constructor. -/
def totalColorsSpec : Nat → List Nat → Nat
  | t, [] => t
  | t, n :: l => totalColorsSpec (alignUp (t + n)) l

/-- Overflow-free specification of the block offsets of the RenderTarget
constructor. -/
def offsetsSpec : Nat → List Nat → List Nat
  | _, [] => []
  | t, n :: l => t :: offsetsSpec (alignUp (t + n)) l

/-- Concrete single-block layout used by witnesses: one block of two keys
with identifiers 10 and 11. -/
def blocksW : List KeyBlock := [⟨[10, 11]⟩]

/-- Concrete memory contents used by witnesses: every cell dark. -/
def memZeroW : Nat → RGBAColor := fun _ => ⟨0, 0, 0, 0⟩

/-- Concrete render target used by witnesses. -/
def targetW : RenderTarget := mkRenderTarget [2] memZeroW

/-- Concrete renderer used by witnesses: paints cell (0, 1) red. -/
def rendererW : Renderer := fun _ t => t.set 0 1 ⟨255, 0, 0, 255⟩

/-- Concrete renderer used by witnesses: repaints nothing. -/
def idleRendererW : Renderer := fun _ t => t

/-- Concrete loop state used by witnesses: state and scratch both dark. -/
def renderStateW : RenderState := { state := targetW, buffer := targetW }

/-- Concrete alternative memory contents used by witnesses: every cell
red. -/
def memRedW : Nat → RGBAColor := fun _ => ⟨255, 0, 0, 255⟩

/-- Concrete block-size sequence used by the layout witness. -/
def sizesW : List Nat := [3, 10, 8]

/-- Concrete device color responses used by the state-read witness: one
block of two colors. -/
def devColorsW : List (List DevColor) := [[⟨1, 2, 3⟩, ⟨4, 5, 6⟩]]

/-- Concrete transient device error used by witnesses. -/
def errTransientW : DevError := ⟨ErrCode.other 3, "transient"⟩

/-- Concrete unexpected terminal device error used by witnesses. -/
def errOtherW : DevError := ⟨ErrCode.other 7, "boom"⟩

/-- Concrete phase-outcome sequence used by the resync witness: a first
periodic phase that raises a transient device error with a successful
resync, then a second phase whose device error resync cannot clear. -/
def roundsResyncW : List (PhaseOutcome × Bool) :=
  [(PhaseOutcome.devError errTransientW, true), (PhaseOutcome.devError errTransientW, false)]

/-- Concrete phase-outcome sequence used by the logging witness: a single
periodic phase raising an unexpected device error, resync failing. -/
def roundsFailW : List (PhaseOutcome × Bool) :=
  [(PhaseOutcome.devError errOtherW, false)]

/-- C6: on a render tick with an empty renderer list, no device operation
is invoked (no flush, no setColors, no commitColors), the loop state is
unchanged, and render still reports continue (returns true). -/
theorem render_empty_renderers_no_device_io (blocks : List KeyBlock) (nanosec : Nat)
    (rs : RenderState) :
    render blocks nanosec [] rs = (true, rs, noDeviceCalls) :=
  rfl

/-- C2: after a render tick that actually rendered (non-empty renderer
list), the current-state target equals the just-rendered scratch content,
cell for cell, with no assumption on whether any directive was emitted;
the exchange is the swapTargets pointer exchange: the backing storage of
the new state is exactly the storage of the rendered scratch target, and
the storage of the new scratch target is exactly the storage of the old
state, no cell being copied. -/
theorem render_swaps_state_and_buffer (blocks : List KeyBlock) (nanosec : Nat)
    (renderers : List Renderer) (rs : RenderState) (hr : renderers ≠ []) :
    (render blocks nanosec renderers rs).2.1.state = runRenderers nanosec renderers rs.buffer ∧
    (∀ bidx idx, (render blocks nanosec renderers rs).2.1.state.get bidx idx =
      (runRenderers nanosec renderers rs.buffer).get bidx idx) ∧
    (render blocks nanosec renderers rs).2.1.buffer = rs.state ∧
    (render blocks nanosec renderers rs).2.1.state.colors =
      (runRenderers nanosec renderers rs.buffer).colors ∧
    (render blocks nanosec renderers rs).2.1.buffer.colors = rs.state.colors ∧
    ((render blocks nanosec renderers rs).2.1.state,
      (render blocks nanosec renderers rs).2.1.buffer) =
      swapTargets rs.state (runRenderers nanosec renderers rs.buffer) := by
  cases renderers with
  | nil => exact absurd rfl hr
  | cons r l => exact ⟨rfl, fun bidx idx => rfl, rfl, rfl, rfl, rfl⟩

/-- Witness for C2: the swap theorem applied to the concrete one-block
loop state with one renderer. -/
theorem render_swaps_state_and_buffer_witness :
    (render blocksW 5 [rendererW] renderStateW).2.1.state =
      runRenderers 5 [rendererW] renderStateW.buffer ∧
    (∀ bidx idx, (render blocksW 5 [rendererW] renderStateW).2.1.state.get bidx idx =
      (runRenderers 5 [rendererW] renderStateW.buffer).get bidx idx) ∧
    (render blocksW 5 [rendererW] renderStateW).2.1.buffer = renderStateW.state ∧
    (render blocksW 5 [rendererW] renderStateW).2.1.state.colors =
      (runRenderers 5 [rendererW] renderStateW.buffer).colors ∧
    (render blocksW 5 [rendererW] renderStateW).2.1.buffer.colors = renderStateW.state.colors ∧
    ((render blocksW 5 [rendererW] renderStateW).2.1.state,
      (render blocksW 5 [rendererW] renderStateW).2.1.buffer) =
      swapTargets renderStateW.state (runRenderers 5 [rendererW] renderStateW.buffer) :=
  render_swaps_state_and_buffer blocksW 5 [rendererW] renderStateW (List.cons_ne_nil _ _)

/-- Helper: the accumulating diff fold equals append of a filter-then-map
over the traversed indices. -/
theorem foldl_diff_eq (g s : Nat → RGBAColor) (k : Nat → Nat) (l : List Nat)
    (acc : List ColorDirective) :
    l.foldl
      (fun ds idx =>
        if g idx ≠ s idx then
          ds ++ [⟨k idx, (g idx).red, (g idx).green, (g idx).blue⟩]
        else ds)
      acc
      = acc ++ (l.filter (fun idx => decide (g idx ≠ s idx))).map
          (fun idx => ⟨k idx, (g idx).red, (g idx).green, (g idx).blue⟩) := by
  induction l generalizing acc with
  | nil => simp
  | cons a l ih =>
    simp only [List.foldl_cons, List.filter_cons]
    by_cases h : g a ≠ s a
    · rw [if_pos h, ih]
      simp [h]
    · rw [if_neg h, ih]
      simp [h]

/-- Helper: the imperative per-block directive loop equals its declarative
description. -/
theorem blockDirectives_eq_spec (state buffer : RenderTarget) (keys : List Nat) (bidx : Nat) :
    blockDirectives state buffer keys bidx = specBlockDirectives state buffer keys bidx := by
  show (List.range keys.length).foldl _ [] = _
  rw [foldl_diff_eq (fun idx => buffer.get bidx idx) (fun idx => state.get bidx idx)
    (fun idx => keys.getD idx 0) (List.range keys.length) []]
  simp [specBlockDirectives]

/-- Helper: the accumulating setColors fold equals append of a filterMap
over the traversed block indices paired with the flag tracking whether any
block produced directives. -/
theorem foldl_setColors_eq (f : Nat → List ColorDirective) (l : List Nat)
    (acc : List (Nat × List ColorDirective)) (flag : Bool) :
    l.foldl
      (fun (acc2 : List (Nat × List ColorDirective) × Bool) bidx =>
        if (f bidx).isEmpty then acc2 else (acc2.1 ++ [(bidx, f bidx)], true))
      (acc, flag)
      = (acc ++ l.filterMap (fun bidx => if (f bidx).isEmpty then none else some (bidx, f bidx)),
         flag || l.any (fun bidx => !(f bidx).isEmpty)) := by
  induction l generalizing acc flag with
  | nil => simp
  | cons a l ih =>
    simp only [List.foldl_cons, List.filterMap_cons, List.any_cons]
    by_cases h : (f a).isEmpty
    · rw [if_pos h, ih]
      simp [h]
    · rw [if_neg h, ih]
      simp [h, List.append_assoc]

/-- C1: on a render tick with a non-empty renderer list, the setColors
calls are exactly described by the claim: one call per block with a
non-empty directive list, where the directive list of a block contains,
in key order, one directive for exactly those key indices whose scratch
color differs from the current-state color, carrying the key identifier
and the red, green and blue channels of the scratch color (the directive
type has no alpha field, so the alpha channel is never transmitted). -/
theorem render_setColors_eq_spec (blocks : List KeyBlock) (nanosec : Nat)
    (renderers : List Renderer) (rs : RenderState) (hr : renderers ≠ []) :
    (render blocks nanosec renderers rs).2.2.setColorsCalls =
      specDirectiveCalls blocks rs.state (runRenderers nanosec renderers rs.buffer) := by
  cases renderers with
  | nil => exact absurd rfl hr
  | cons r l =>
    show ((List.range blocks.length).foldl
      (fun (acc2 : List (Nat × List ColorDirective) × Bool) bidx =>
        if (blockDirectives rs.state (runRenderers nanosec (r :: l) rs.buffer)
            (blocks.getD bidx default).keys bidx).isEmpty
        then acc2
        else (acc2.1 ++ [(bidx, blockDirectives rs.state (runRenderers nanosec (r :: l) rs.buffer)
              (blocks.getD bidx default).keys bidx)], true))
      ([], false)).1 = _
    rw [foldl_setColors_eq (fun bidx =>
      blockDirectives rs.state (runRenderers nanosec (r :: l) rs.buffer)
        (blocks.getD bidx default).keys bidx) (List.range blocks.length) [] false]
    simp only [List.nil_append, blockDirectives_eq_spec]
    rfl

/-- Witness for C1: the diff refinement theorem applied to the concrete
one-block loop state with one renderer. -/
theorem render_setColors_eq_spec_witness :
    (render blocksW 5 [rendererW] renderStateW).2.2.setColorsCalls =
      specDirectiveCalls blocksW renderStateW.state
        (runRenderers 5 [rendererW] renderStateW.buffer) :=
  render_setColors_eq_spec blocksW 5 [rendererW] renderStateW (List.cons_ne_nil _ _)

/-- C7: on a render tick with a non-empty renderer list, commitColors is
called exactly when some block produced at least one directive; and if the
scratch buffer agrees with the current-state buffer at every valid
(block, index) pair, then every block produces zero directives and neither
setColors nor commitColors is called. -/
theorem render_commit_iff_changes (blocks : List KeyBlock) (nanosec : Nat)
    (renderers : List Renderer) (rs : RenderState) (hr : renderers ≠ []) :
    ((render blocks nanosec renderers rs).2.2.commits = 1 ↔
      ∃ bidx, bidx < blocks.length ∧
        blockDirectives rs.state (runRenderers nanosec renderers rs.buffer)
          (blocks.getD bidx default).keys bidx ≠ []) ∧
    ((∀ bidx idx, bidx < blocks.length → idx < (blocks.getD bidx default).keys.length →
        (runRenderers nanosec renderers rs.buffer).get bidx idx = rs.state.get bidx idx) →
      (∀ bidx, bidx < blocks.length →
        blockDirectives rs.state (runRenderers nanosec renderers rs.buffer)
          (blocks.getD bidx default).keys bidx = []) ∧
      (render blocks nanosec renderers rs).2.2.setColorsCalls = [] ∧
      (render blocks nanosec renderers rs).2.2.commits = 0) := by
  cases renderers with
  | nil => exact absurd rfl hr
  | cons r l =>
    have hfold := foldl_setColors_eq (fun bidx =>
      blockDirectives rs.state (runRenderers nanosec (r :: l) rs.buffer)
        (blocks.getD bidx default).keys bidx) (List.range blocks.length) [] false
    have hcommits : (render blocks nanosec (r :: l) rs).2.2.commits =
        (if ((List.range blocks.length).foldl
          (fun (acc2 : List (Nat × List ColorDirective) × Bool) bidx =>
            if (blockDirectives rs.state (runRenderers nanosec (r :: l) rs.buffer)
                (blocks.getD bidx default).keys bidx).isEmpty
            then acc2
            else (acc2.1 ++ [(bidx, blockDirectives rs.state
                  (runRenderers nanosec (r :: l) rs.buffer)
                  (blocks.getD bidx default).keys bidx)], true))
          ([], false)).2 then 1 else 0) := rfl
    have hcalls : (render blocks nanosec (r :: l) rs).2.2.setColorsCalls =
        ((List.range blocks.length).foldl
          (fun (acc2 : List (Nat × List ColorDirective) × Bool) bidx =>
            if (blockDirectives rs.state (runRenderers nanosec (r :: l) rs.buffer)
                (blocks.getD bidx default).keys bidx).isEmpty
            then acc2
            else (acc2.1 ++ [(bidx, blockDirectives rs.state
                  (runRenderers nanosec (r :: l) rs.buffer)
                  (blocks.getD bidx default).keys bidx)], true))
          ([], false)).1 := rfl
    constructor
    · rw [hcommits, hfold]
      simp only [Bool.false_or]
      constructor
      · intro h1
        by_cases hany : (List.range blocks.length).any (fun bidx =>
            !(blockDirectives rs.state (runRenderers nanosec (r :: l) rs.buffer)
              (blocks.getD bidx default).keys bidx).isEmpty)
        · rcases List.any_eq_true.mp hany with ⟨bidx, hmem, hne⟩
          exact ⟨bidx, List.mem_range.mp hmem, by simpa using hne⟩
        · rw [Bool.not_eq_true] at hany
          rw [hany] at h1
          simp at h1
      · rintro ⟨bidx, hlt, hne⟩
        have hany : (List.range blocks.length).any (fun bidx =>
            !(blockDirectives rs.state (runRenderers nanosec (r :: l) rs.buffer)
              (blocks.getD bidx default).keys bidx).isEmpty) = true := by
          refine List.any_eq_true.mpr ⟨bidx, List.mem_range.mpr hlt, ?_⟩
          simpa using hne
        rw [hany]
        rfl
    · intro heq
      have hzero : ∀ bidx, bidx < blocks.length →
          blockDirectives rs.state (runRenderers nanosec (r :: l) rs.buffer)
            (blocks.getD bidx default).keys bidx = [] := by
        intro bidx hb
        rw [blockDirectives_eq_spec]
        unfold specBlockDirectives
        have hnil : (List.range (blocks.getD bidx default).keys.length).filter
            (fun idx => decide ((runRenderers nanosec (r :: l) rs.buffer).get bidx idx ≠
              rs.state.get bidx idx)) = [] := by
          refine List.filter_eq_nil_iff.mpr ?_
          intro idx hidx
          have hlt := List.mem_range.mp hidx
          simp [heq bidx idx hb hlt]
        rw [hnil]
        rfl
      refine ⟨hzero, ?_, ?_⟩
      · rw [hcalls, hfold]
        simp only [List.nil_append]
        refine List.filterMap_eq_nil_iff.mpr ?_
        intro bidx hmem
        rw [hzero bidx (List.mem_range.mp hmem)]
        rfl
      · rw [hcommits, hfold]
        simp only [Bool.false_or]
        have hany : (List.range blocks.length).any (fun bidx =>
            !(blockDirectives rs.state (runRenderers nanosec (r :: l) rs.buffer)
              (blocks.getD bidx default).keys bidx).isEmpty) = false := by
          rw [List.any_eq_false]
          intro bidx hmem
          rw [hzero bidx (List.mem_range.mp hmem)]
          simp
        rw [hany]
        rfl

/-- Witness for C7: the commit theorem applied to the concrete one-block
loop state with a renderer that repaints nothing, so that the inner
no-change implication also fires. -/
theorem render_commit_iff_changes_witness :
    (((render blocksW 5 [idleRendererW] renderStateW).2.2.commits = 1 ↔
      ∃ bidx, bidx < blocksW.length ∧
        blockDirectives renderStateW.state
          (runRenderers 5 [idleRendererW] renderStateW.buffer)
          (blocksW.getD bidx default).keys bidx ≠ []) ∧
    ((∀ bidx idx, bidx < blocksW.length → idx < (blocksW.getD bidx default).keys.length →
        (runRenderers 5 [idleRendererW] renderStateW.buffer).get bidx idx =
          renderStateW.state.get bidx idx) →
      (∀ bidx, bidx < blocksW.length →
        blockDirectives renderStateW.state
          (runRenderers 5 [idleRendererW] renderStateW.buffer)
          (blocksW.getD bidx default).keys bidx = []) ∧
      (render blocksW 5 [idleRendererW] renderStateW).2.2.setColorsCalls = [] ∧
      (render blocksW 5 [idleRendererW] renderStateW).2.2.commits = 0)) ∧
    (∀ bidx idx, bidx < blocksW.length → idx < (blocksW.getD bidx default).keys.length →
      (runRenderers 5 [idleRendererW] renderStateW.buffer).get bidx idx =
        renderStateW.state.get bidx idx) :=
  ⟨render_commit_iff_changes blocksW 5 [idleRendererW] renderStateW (List.cons_ne_nil _ _),
   fun _ _ _ _ => rfl⟩

/-- C5: structure of the recovery loop of run. If the first k periodic
phases all end in a device error whose resync succeeds, then after k
resync calls the phase is started for a (k+1)-th time, and the outcome of
that phase decides everything: a completed phase ends the loop with no
further resync (k resyncs total), a non-device exception propagates with
no further resync (k resyncs total), and a device error whose resync
fails is re-raised as the final error after exactly one more resync, no
further phase being started. -/
theorem loopPhase_resync_protocol (rounds : List (PhaseOutcome × Bool)) (k : Nat)
    (hk : k < rounds.length)
    (hpre : ∀ j, j < k → ∃ e, rounds.getD j default = (PhaseOutcome.devError e, true)) :
    (∀ r, rounds.getD k default = (PhaseOutcome.completed, r) →
      loopPhase rounds = ⟨some LoopExit.normal, k, k + 1⟩) ∧
    (∀ m r, rounds.getD k default = (PhaseOutcome.otherExn m, r) →
      loopPhase rounds = ⟨some (LoopExit.exn m), k, k + 1⟩) ∧
    (∀ e, rounds.getD k default = (PhaseOutcome.devError e, false) →
      loopPhase rounds = ⟨some (LoopExit.devErr e), k + 1, k + 1⟩) := by
  induction rounds generalizing k with
  | nil => exact absurd hk (by simp)
  | cons hd rest ih =>
    cases k with
    | zero =>
      refine ⟨?_, ?_, ?_⟩
      · intro r h
        have h2 : hd = (PhaseOutcome.completed, r) := by simpa using h
        subst h2
        rfl
      · intro m r h
        have h2 : hd = (PhaseOutcome.otherExn m, r) := by simpa using h
        subst h2
        rfl
      · intro e h
        have h2 : hd = (PhaseOutcome.devError e, false) := by simpa using h
        subst h2
        rfl
    | succ kk =>
      obtain ⟨e0, h0⟩ := hpre 0 (Nat.succ_pos kk)
      have h0b : hd = (PhaseOutcome.devError e0, true) := by simpa using h0
      subst h0b
      have hk2 : kk < rest.length := by simpa using hk
      have hpre2 : ∀ j, j < kk → ∃ e, rest.getD j default = (PhaseOutcome.devError e, true) := by
        intro j hj
        have h3 := hpre (j + 1) (by omega)
        simpa using h3
      obtain ⟨ha, hb, hc⟩ := ih kk hk2 hpre2
      refine ⟨?_, ?_, ?_⟩
      · intro r h
        have h2 : rest.getD kk default = (PhaseOutcome.completed, r) := by simpa using h
        show (⟨(loopPhase rest).exit, (loopPhase rest).resyncs + 1,
          (loopPhase rest).starts + 1⟩ : LoopTrace) = _
        rw [ha r h2]
      · intro m r h
        have h2 : rest.getD kk default = (PhaseOutcome.otherExn m, r) := by simpa using h
        show (⟨(loopPhase rest).exit, (loopPhase rest).resyncs + 1,
          (loopPhase rest).starts + 1⟩ : LoopTrace) = _
        rw [hb m r h2]
      · intro e h
        have h2 : rest.getD kk default = (PhaseOutcome.devError e, false) := by simpa using h
        show (⟨(loopPhase rest).exit, (loopPhase rest).resyncs + 1,
          (loopPhase rest).starts + 1⟩ : LoopTrace) = _
        rw [hc e h2]

/-- Witness for C5: the resync protocol theorem applied to a concrete
two-round sequence whose first phase is recovered by resync and whose
second device error resync cannot clear. -/
theorem loopPhase_resync_protocol_witness :
    (∀ r, roundsResyncW.getD 1 default = (PhaseOutcome.completed, r) →
      loopPhase roundsResyncW = ⟨some LoopExit.normal, 1, 2⟩) ∧
    (∀ m r, roundsResyncW.getD 1 default = (PhaseOutcome.otherExn m, r) →
      loopPhase roundsResyncW = ⟨some (LoopExit.exn m), 1, 2⟩) ∧
    (∀ e, roundsResyncW.getD 1 default = (PhaseOutcome.devError e, false) →
      loopPhase roundsResyncW = ⟨some (LoopExit.devErr e), 2, 2⟩) :=
  loopPhase_resync_protocol roundsResyncW 1 (by simp [roundsResyncW])
    (by
      intro j hj
      cases j with
      | zero => exact ⟨errTransientW, rfl⟩
      | succ n => omega)

/-- Helper: the silent-exit test of run holds exactly for the errno code
with errno ENODEV and for the timed-out code. -/
theorem isExpectedTerminal_iff (e : DevError) :
    isExpectedTerminal e = true ↔
      (e.code = ErrCode.errnoCode ENODEV ∨ e.code = ErrCode.timedout) := by
  cases e with
  | mk code what =>
    cases code with
    | errnoCode v => simp [isExpectedTerminal, beq_iff_eq]
    | timedout => simp [isExpectedTerminal]
    | other t => simp [isExpectedTerminal]

/-- C4: when the periodic phase ends with a final, unrecoverable device
error, run returns normally with no log output exactly when the error is
the errno-carrying code with errno ENODEV (device vanished) or the
timed-out code, and with exactly one error log line otherwise; when the
periodic phase ends with any other exception, run returns normally with
exactly one log line. -/
theorem run_final_error_logging (rounds : List (PhaseOutcome × Bool)) :
    (∀ e, (loopPhase rounds).exit = some (LoopExit.devErr e) →
      ∃ tr, runLoop none rounds = some tr ∧
        (tr.logs = [] ↔ (e.code = ErrCode.errnoCode ENODEV ∨ e.code = ErrCode.timedout)) ∧
        (¬(e.code = ErrCode.errnoCode ENODEV ∨ e.code = ErrCode.timedout) →
          tr.logs.length = 1)) ∧
    (∀ m, (loopPhase rounds).exit = some (LoopExit.exn m) →
      ∃ tr, runLoop none rounds = some tr ∧ tr.logs.length = 1) := by
  constructor
  · intro e h
    by_cases hterm : isExpectedTerminal e = true
    · refine ⟨⟨[], true, (loopPhase rounds).starts, (loopPhase rounds).resyncs⟩, ?_, ?_, ?_⟩
      · simp [runLoop, h, hterm]
      · simpa using (isExpectedTerminal_iff e).mp hterm
      · intro hc
        exact absurd ((isExpectedTerminal_iff e).mp hterm) hc
    · refine ⟨⟨[describeDevError e], true, (loopPhase rounds).starts,
        (loopPhase rounds).resyncs⟩, ?_, ?_, ?_⟩
      · simp [runLoop, h, hterm]
      · constructor
        · intro hc
          simp at hc
        · intro hc
          exact absurd ((isExpectedTerminal_iff e).mpr hc) hterm
      · intro _
        rfl
  · intro m h
    exact ⟨⟨[m], true, (loopPhase rounds).starts, (loopPhase rounds).resyncs⟩,
      by simp [runLoop, h], rfl⟩

/-- Witness for C4: the logging theorem applied to a concrete sequence
ending in an unexpected device error. -/
theorem run_final_error_logging_witness :
    ∃ tr, runLoop none roundsFailW = some tr ∧
      (tr.logs = [] ↔
        (errOtherW.code = ErrCode.errnoCode ENODEV ∨ errOtherW.code = ErrCode.timedout)) ∧
      (¬(errOtherW.code = ErrCode.errnoCode ENODEV ∨ errOtherW.code = ErrCode.timedout) →
        tr.logs.length = 1) :=
  (run_final_error_logging roundsFailW).1 errOtherW rfl

/-- C9: move construction transfers the backing allocation to the new
object (same storage, count and block table), leaves the moved-from
object with a null storage pointer so it no longer refers to the
transferred allocation, and destroying the moved-from object frees
nothing, so the storage now owned by the destination is not released. -/
theorem renderTarget_move_transfers_ownership (other : RenderTarget) :
    (moveConstruct other).1.colors = other.colors ∧
    (moveConstruct other).1.nbColors = other.nbColors ∧
    (moveConstruct other).1.blocks = other.blocks ∧
    (moveConstruct other).2.colors = none ∧
    destructorFrees (moveConstruct other).2 = none :=
  ⟨rfl, rfl, rfl, rfl, rfl⟩

/-- C10: the RenderTarget constructor writes no cell value, so every cell
of a fresh target holds exactly what the modelled allocator memory held
at its flat index; two different allocator contents give observably
different cells; and on a tick whose renderer repaints nothing, the
directives emitted by render depend on those indeterminate scratch
contents: with one allocator content the tick emits no setColors call,
with another it does. -/
theorem renderTarget_cells_indeterminate :
    (∀ (block_sizes : List Nat) (mem : Nat → RGBAColor) (bidx idx : Nat),
      (mkRenderTarget block_sizes mem).get bidx idx =
        mem ((RenderTarget.offsets 0 block_sizes).getD bidx 0 + idx)) ∧
    (∃ m1 m2 : Nat → RGBAColor,
      (mkRenderTarget [1] m1).get 0 0 ≠ (mkRenderTarget [1] m2).get 0 0) ∧
    ((render blocksW 0 [idleRendererW]
        { state := targetW, buffer := mkRenderTarget [2] memZeroW }).2.2.setColorsCalls = [] ∧
      (render blocksW 0 [idleRendererW]
        { state := targetW, buffer := mkRenderTarget [2] memRedW }).2.2.setColorsCalls ≠ []) :=
  ⟨fun _ _ _ _ => rfl,
   ⟨memZeroW, memRedW, by decide⟩,
   by decide⟩

/-- Helper: masking a 64-bit value with the complement of 7 clears its
three low bits, that is, rounds it down to a multiple of 8. -/
theorem land_mask_eight (x : Nat) (hx : x < W64) : x &&& (W64 - 8) = 8 * (x / 8) := by
  have hmask : W64 - 8 = 2 ^ 3 * (2 ^ 61 - 1) := by norm_num [W64]
  have hdiv : 8 * (x / 8) = 2 ^ 3 * (x >>> 3) := by
    rw [Nat.shiftRight_eq_div_pow]
    norm_num
  rw [hmask, hdiv]
  apply Nat.eq_of_testBit_eq
  intro i
  rw [Nat.testBit_land, Nat.testBit_mul_pow_two, Nat.testBit_mul_pow_two,
    Nat.testBit_two_pow_sub_one, Nat.testBit_shiftRight]
  by_cases h3 : 3 ≤ i
  · have hieq : 3 + (i - 3) = i := by omega
    rw [hieq]
    by_cases h64 : i < 64
    · have h61 : i - 3 < 61 := by omega
      simp [ge_iff_le, h3, h61, Bool.and_comm]
    · have hx2 : x < 2 ^ i := by
        have hle : (2 : Nat) ^ 64 ≤ 2 ^ i := Nat.pow_le_pow_right (by norm_num) (by omega)
        have hx3 : x < 2 ^ 64 := by simpa [W64] using hx
        omega
      have hxb : x.testBit i = false := Nat.testBit_lt_two_pow hx2
      simp [hxb]
  · have h3b : ¬(i ≥ 3) := h3
    simp [h3b]

/-- Helper: below the 64-bit overflow threshold, the bit-twiddling align
helper at alignment 8 equals rounding up to the next multiple of 8. -/
theorem align_eq_alignUp (v : Nat) (hv : v + 7 < W64) : align v align_colors = alignUp v := by
  show ((v + 8 - 1) % W64) &&& ((W64 - 1) - (8 - 1) % W64) = alignUp v
  have h1 : v + 8 - 1 = v + 7 := by omega
  have h2 : (8 - 1) % W64 = 7 := by norm_num [W64]
  have h3 : W64 - 1 - 7 = W64 - 8 := by norm_num [W64]
  rw [h1, h2, h3, Nat.mod_eq_of_lt hv, land_mask_eight (v + 7) hv]
  rfl

/-- Helper: rounding up never shrinks a value. -/
theorem alignUp_ge (v : Nat) : v ≤ alignUp v := by
  have h := Nat.div_add_mod (v + 7) 8
  have h2 : (v + 7) % 8 < 8 := Nat.mod_lt _ (by norm_num)
  unfold alignUp
  omega

/-- Helper: rounding up adds at most 7. -/
theorem alignUp_le (v : Nat) : alignUp v ≤ v + 7 := by
  have h := Nat.div_add_mod (v + 7) 8
  unfold alignUp
  omega

/-- Helper: a rounded-up value is a multiple of 8. -/
theorem alignUp_mod (v : Nat) : alignUp v % 8 = 0 :=
  Nat.mul_mod_right 8 _

/-- Helper: the accumulator never shrinks along the total-count fold. -/
theorem le_totalColorsSpec (l : List Nat) : ∀ t, t ≤ totalColorsSpec t l := by
  induction l with
  | nil => intro t; simp [totalColorsSpec]
  | cons n l ih =>
    intro t
    have h1 : t ≤ alignUp (t + n) := Nat.le_trans (Nat.le_add_right t n) (alignUp_ge _)
    exact Nat.le_trans h1 (ih (alignUp (t + n)))

/-- Helper: the total cell count dominates the accumulator plus the sum of
the remaining block sizes. -/
theorem sum_le_totalColorsSpec (l : List Nat) : ∀ t, t + l.sum ≤ totalColorsSpec t l := by
  induction l with
  | nil => intro t; simp [totalColorsSpec]
  | cons n l ih =>
    intro t
    have h1 : t + n ≤ alignUp (t + n) := alignUp_ge _
    have h2 := ih (alignUp (t + n))
    simp only [List.sum_cons]
    show t + (n + l.sum) ≤ totalColorsSpec (alignUp (t + n)) l
    omega

/-- Helper: below the overflow threshold the constructor total-count loop
equals its overflow-free specification. -/
theorem totalColors_eq_spec (l : List Nat) : ∀ t, totalColorsSpec t l + 7 < W64 →
    RenderTarget.totalColors t l = totalColorsSpec t l := by
  induction l with
  | nil => intro t _; rfl
  | cons n l ih =>
    intro t h
    have hle : alignUp (t + n) ≤ totalColorsSpec t (n :: l) :=
      le_totalColorsSpec l (alignUp (t + n))
    have hbound : t + n + 7 < W64 := by
      have h2 := alignUp_ge (t + n)
      omega
    have hal : align (t + n) align_colors = alignUp (t + n) := align_eq_alignUp (t + n) hbound
    show RenderTarget.totalColors (align (t + n) align_colors) l = totalColorsSpec (alignUp (t + n)) l
    rw [hal]
    exact ih (alignUp (t + n)) h

/-- Helper: below the overflow threshold the constructor offset loop
equals its overflow-free specification. -/
theorem offsets_eq_spec (l : List Nat) : ∀ t, totalColorsSpec t l + 7 < W64 →
    RenderTarget.offsets t l = offsetsSpec t l := by
  induction l with
  | nil => intro t _; rfl
  | cons n l ih =>
    intro t h
    have hle : alignUp (t + n) ≤ totalColorsSpec t (n :: l) :=
      le_totalColorsSpec l (alignUp (t + n))
    have hbound : t + n + 7 < W64 := by
      have h2 := alignUp_ge (t + n)
      omega
    have hal : align (t + n) align_colors = alignUp (t + n) := align_eq_alignUp (t + n) hbound
    show t :: RenderTarget.offsets (align (t + n) align_colors) l =
      t :: offsetsSpec (alignUp (t + n)) l
    rw [hal, ih (alignUp (t + n)) h]

/-- Helper: every offset dominates the starting accumulator. -/
theorem offsetsSpec_ge (l : List Nat) : ∀ t b, b < l.length →
    t ≤ (offsetsSpec t l).getD b 0 := by
  induction l with
  | nil => intro t b hb; simp at hb
  | cons n l ih =>
    intro t b hb
    cases b with
    | zero => simp [offsetsSpec]
    | succ bb =>
      have hb2 : bb < l.length := by simpa using hb
      have h1 := ih (alignUp (t + n)) bb hb2
      have h2 : t ≤ alignUp (t + n) := Nat.le_trans (Nat.le_add_right t n) (alignUp_ge _)
      simp only [offsetsSpec, List.getD_cons_succ]
      omega

/-- Helper: each successive offset is the previous offset plus its block
size, rounded up. -/
theorem offsetsSpec_succ (l : List Nat) : ∀ t b, b + 1 < l.length →
    (offsetsSpec t l).getD (b + 1) 0 =
      alignUp ((offsetsSpec t l).getD b 0 + l.getD b 0) := by
  induction l with
  | nil => intro t b hb; simp at hb
  | cons n l ih =>
    intro t b hb
    cases b with
    | zero =>
      have hl : 0 < l.length := by simpa using hb
      cases l with
      | nil => simp at hl
      | cons m l2 => rfl
    | succ bb =>
      have hb2 : bb + 1 < l.length := by simpa using hb
      have h1 := ih (alignUp (t + n)) bb hb2
      simpa only [offsetsSpec, List.getD_cons_succ] using h1

/-- Helper: each block ends at or before the total cell count. -/
theorem offsetsSpec_add_le_total (l : List Nat) : ∀ t b, b < l.length →
    (offsetsSpec t l).getD b 0 + l.getD b 0 ≤ totalColorsSpec t l := by
  induction l with
  | nil => intro t b hb; simp at hb
  | cons n l ih =>
    intro t b hb
    cases b with
    | zero =>
      have h1 := le_totalColorsSpec l (alignUp (t + n))
      have h2 := alignUp_ge (t + n)
      simp only [offsetsSpec, List.getD_cons_zero]
      show t + n ≤ totalColorsSpec (alignUp (t + n)) l
      omega
    | succ bb =>
      have hb2 : bb < l.length := by simpa using hb
      have h1 := ih (alignUp (t + n)) bb hb2
      simpa only [offsetsSpec, List.getD_cons_succ] using h1

/-- Helper: an earlier block ends at or before a later block starts. -/
theorem offsetsSpec_gap (l : List Nat) : ∀ t b b2, b < b2 → b2 < l.length →
    (offsetsSpec t l).getD b 0 + l.getD b 0 ≤ (offsetsSpec t l).getD b2 0 := by
  induction l with
  | nil => intro t b b2 _ hb2; simp at hb2
  | cons n l ih =>
    intro t b b2 hb hb2
    cases b with
    | zero =>
      cases b2 with
      | zero => omega
      | succ bb2 =>
        have hb2b : bb2 < l.length := by simpa using hb2
        have h1 := offsetsSpec_ge l (alignUp (t + n)) bb2 hb2b
        have h2 := alignUp_ge (t + n)
        simp only [offsetsSpec, List.getD_cons_zero, List.getD_cons_succ]
        omega
    | succ bb =>
      cases b2 with
      | zero => omega
      | succ bb2 =>
        have hb2b : bb2 < l.length := by simpa using hb2
        have h1 := ih (alignUp (t + n)) bb bb2 (by omega) hb2b
        simpa only [offsetsSpec, List.getD_cons_succ] using h1

/-- Helper: offsets inherit divisibility by 8 from the accumulator. -/
theorem offsetsSpec_mod (l : List Nat) : ∀ t, t % 8 = 0 → ∀ b, b < l.length →
    (offsetsSpec t l).getD b 0 % 8 = 0 := by
  induction l with
  | nil => intro t _ b hb; simp at hb
  | cons n l ih =>
    intro t ht b hb
    cases b with
    | zero => simpa [offsetsSpec] using ht
    | succ bb =>
      have hb2 : bb < l.length := by simpa using hb
      have h1 := ih (alignUp (t + n)) (alignUp_mod (t + n)) bb hb2
      simpa only [offsetsSpec, List.getD_cons_succ] using h1

/-- C3: layout of the constructed render target, below the 64-bit
overflow threshold. Every block start offset is a multiple of the
alignment-derived cell count align_colors = 32 / 4 = 8; the first block
starts at offset 0 and each later block starts at the previous running
total rounded up to a multiple of 8; the allocated cell count reported by
size() dominates the sum of the per-block key counts; every valid
(block, index) pair addresses a cell inside the allocation; and cells of
distinct blocks never overlap. -/
theorem renderTarget_layout (block_sizes : List Nat) (mem : Nat → RGBAColor)
    (hov : totalColorsSpec 0 block_sizes + 7 < W64) :
    (∀ b, b < block_sizes.length →
      (mkRenderTarget block_sizes mem).blocks.getD b 0 % align_colors = 0) ∧
    (block_sizes ≠ [] → (mkRenderTarget block_sizes mem).blocks.getD 0 0 = 0) ∧
    (∀ b, b + 1 < block_sizes.length →
      (mkRenderTarget block_sizes mem).blocks.getD (b + 1) 0 =
        alignUp ((mkRenderTarget block_sizes mem).blocks.getD b 0 + block_sizes.getD b 0)) ∧
    block_sizes.sum ≤ (mkRenderTarget block_sizes mem).nbColors ∧
    (∀ b i, b < block_sizes.length → i < block_sizes.getD b 0 →
      (mkRenderTarget block_sizes mem).cellIndex b i <
        (mkRenderTarget block_sizes mem).nbColors) ∧
    (∀ b b2 i i2, b < block_sizes.length → b2 < block_sizes.length →
      i < block_sizes.getD b 0 → i2 < block_sizes.getD b2 0 → b ≠ b2 →
      (mkRenderTarget block_sizes mem).cellIndex b i ≠
        (mkRenderTarget block_sizes mem).cellIndex b2 i2) := by
  have hblocks : (mkRenderTarget block_sizes mem).blocks = offsetsSpec 0 block_sizes :=
    offsets_eq_spec block_sizes 0 hov
  have hnb : (mkRenderTarget block_sizes mem).nbColors = totalColorsSpec 0 block_sizes :=
    totalColors_eq_spec block_sizes 0 hov
  have hcell : ∀ b i, (mkRenderTarget block_sizes mem).cellIndex b i =
      (offsetsSpec 0 block_sizes).getD b 0 + i := by
    intro b i
    show (mkRenderTarget block_sizes mem).blocks.getD b 0 + i = _
    rw [hblocks]
  refine ⟨?_, ?_, ?_, ?_, ?_, ?_⟩
  · intro b hb
    rw [hblocks]
    show (offsetsSpec 0 block_sizes).getD b 0 % 8 = 0
    exact offsetsSpec_mod block_sizes 0 rfl b hb
  · intro hne
    rw [hblocks]
    cases block_sizes with
    | nil => exact absurd rfl hne
    | cons n l => rfl
  · intro b hb
    rw [hblocks]
    exact offsetsSpec_succ block_sizes 0 b hb
  · rw [hnb]
    have h1 := sum_le_totalColorsSpec block_sizes 0
    omega
  · intro b i hb hi
    rw [hcell, hnb]
    have h1 := offsetsSpec_add_le_total block_sizes 0 b hb
    omega
  · intro b b2 i i2 hb hb2 hi hi2 hne
    rw [hcell, hcell]
    rcases Nat.lt_or_ge b b2 with hlt | hge
    · have h1 := offsetsSpec_gap block_sizes 0 b b2 hlt hb2
      omega
    · have hlt2 : b2 < b := by omega
      have h1 := offsetsSpec_gap block_sizes 0 b2 b hlt2 hb
      omega

/-- Counterexample to the unrestricted reading of the layout claim: for a
single block of 2^64 - 1 keys the 64-bit std::size_t arithmetic of the
align helper wraps (2^64 - 1 + 7 overflows to 6, which the mask rounds
down to 0), the constructor computes a total of 0 cells, and the size()
reported by the target is strictly smaller than the sum of the per-block
key counts. -/
theorem renderTarget_layout_counterexample :
    (mkRenderTarget [2 ^ 64 - 1] memZeroW).nbColors < List.sum [2 ^ 64 - 1] := by
  decide

/-- Witness for C3: the layout theorem applied to the concrete block-size
sequence [3, 10, 8]. -/
theorem renderTarget_layout_witness :
    (∀ b, b < sizesW.length →
      (mkRenderTarget sizesW memZeroW).blocks.getD b 0 % align_colors = 0) ∧
    (sizesW ≠ [] → (mkRenderTarget sizesW memZeroW).blocks.getD 0 0 = 0) ∧
    (∀ b, b + 1 < sizesW.length →
      (mkRenderTarget sizesW memZeroW).blocks.getD (b + 1) 0 =
        alignUp ((mkRenderTarget sizesW memZeroW).blocks.getD b 0 + sizesW.getD b 0)) ∧
    sizesW.sum ≤ (mkRenderTarget sizesW memZeroW).nbColors ∧
    (∀ b i, b < sizesW.length → i < sizesW.getD b 0 →
      (mkRenderTarget sizesW memZeroW).cellIndex b i <
        (mkRenderTarget sizesW memZeroW).nbColors) ∧
    (∀ b b2 i i2, b < sizesW.length → b2 < sizesW.length →
      i < sizesW.getD b 0 → i2 < sizesW.getD b2 0 → b ≠ b2 →
      (mkRenderTarget sizesW memZeroW).cellIndex b i ≠
        (mkRenderTarget sizesW memZeroW).cellIndex b2 i2) :=
  renderTarget_layout sizesW memZeroW (by decide)

/-- Helper: a single cell write preserves the block table, the cell count
and storage validity, and changes exactly the addressed flat cell. -/
theorem set_cell_char (u : RenderTarget) (h : u.colors.isSome = true) (b i : Nat)
    (c : RGBAColor) :
    (u.set b i c).blocks = u.blocks ∧
    (u.set b i c).nbColors = u.nbColors ∧
    (u.set b i c).colors.isSome = true ∧
    ∀ j, (u.set b i c).cell j = if j = u.blocks.getD b 0 + i then c else u.cell j := by
  cases u with
  | mk co nb bl =>
    cases co with
    | some f => exact ⟨rfl, rfl, rfl, fun j => rfl⟩
    | none => simp at h

/-- Helper: the inner write loop over one block preserves the block table,
the cell count and storage validity, and rewrites exactly the flat cells
of the half-open interval of that block, each to the value determined by
its index. -/
theorem foldl_set_range_char (bidx : Nat) (g : Nat → RGBAColor) (m : Nat) (t : RenderTarget)
    (h : t.colors.isSome = true) :
    ((List.range m).foldl (fun st idx => st.set bidx idx (g idx)) t).blocks = t.blocks ∧
    ((List.range m).foldl (fun st idx => st.set bidx idx (g idx)) t).nbColors = t.nbColors ∧
    ((List.range m).foldl (fun st idx => st.set bidx idx (g idx)) t).colors.isSome = true ∧
    ∀ j, ((List.range m).foldl (fun st idx => st.set bidx idx (g idx)) t).cell j =
      if t.blocks.getD bidx 0 ≤ j ∧ j < t.blocks.getD bidx 0 + m
      then g (j - t.blocks.getD bidx 0) else t.cell j := by
  induction m with
  | zero =>
    refine ⟨rfl, rfl, h, ?_⟩
    intro j
    rw [if_neg (by omega)]
    rfl
  | succ mm ih =>
    obtain ⟨ihb, ihn, ihs, ihc⟩ := ih
    have hfold : (List.range (mm + 1)).foldl (fun st idx => st.set bidx idx (g idx)) t =
        ((List.range mm).foldl (fun st idx => st.set bidx idx (g idx)) t).set bidx mm (g mm) := by
      rw [List.range_succ, List.foldl_append]
      rfl
    obtain ⟨sb, sn, ss, sc⟩ := set_cell_char
      ((List.range mm).foldl (fun st idx => st.set bidx idx (g idx)) t) ihs bidx mm (g mm)
    refine ⟨?_, ?_, ?_, ?_⟩
    · rw [hfold, sb, ihb]
    · rw [hfold, sn, ihn]
    · rw [hfold]; exact ss
    · intro j
      rw [hfold, sc j, ihb]
      by_cases hj : j = t.blocks.getD bidx 0 + mm
      · rw [if_pos hj, if_pos (by omega)]
        have hsub : j - t.blocks.getD bidx 0 = mm := by omega
        rw [hsub]
      · rw [if_neg hj, ihc j]
        by_cases hin : t.blocks.getD bidx 0 ≤ j ∧ j < t.blocks.getD bidx 0 + mm
        · rw [if_pos hin, if_pos (by omega)]
        · rw [if_neg hin, if_neg (by omega)]

/-- Helper: characterization of the per-block write of getDeviceState. -/
theorem writeBlockColors_char (bidx : Nat) (colors : List DevColor) (t : RenderTarget)
    (h : t.colors.isSome = true) :
    (writeBlockColors bidx colors t).blocks = t.blocks ∧
    (writeBlockColors bidx colors t).nbColors = t.nbColors ∧
    (writeBlockColors bidx colors t).colors.isSome = true ∧
    ∀ j, (writeBlockColors bidx colors t).cell j =
      if t.blocks.getD bidx 0 ≤ j ∧ j < t.blocks.getD bidx 0 + colors.length
      then ⟨(colors.getD (j - t.blocks.getD bidx 0) default).red,
            (colors.getD (j - t.blocks.getD bidx 0) default).green,
            (colors.getD (j - t.blocks.getD bidx 0) default).blue, 255⟩
      else t.cell j :=
  foldl_set_range_char bidx
    (fun idx => ⟨(colors.getD idx default).red, (colors.getD idx default).green,
      (colors.getD idx default).blue, 255⟩)
    colors.length t h

/-- Helper: characterization of the outer write loop of getDeviceState.
The block table, the cell count and storage validity are preserved; a
flat cell inside no written interval is unchanged; a cell at offset i of
a written block whose interval no other written block overlaps receives
the device color of that index with alpha 255. -/
theorem writeAllBlocks_char (devColors : List (List DevColor)) (lb : List Nat) :
    ∀ (t : RenderTarget), t.colors.isSome = true →
    (writeAllBlocks devColors lb t).blocks = t.blocks ∧
    (writeAllBlocks devColors lb t).nbColors = t.nbColors ∧
    (writeAllBlocks devColors lb t).colors.isSome = true ∧
    (∀ j, (∀ b, b ∈ lb →
        ¬(t.blocks.getD b 0 ≤ j ∧ j < t.blocks.getD b 0 + (devColors.getD b []).length)) →
      (writeAllBlocks devColors lb t).cell j = t.cell j) ∧
    (∀ b i, b ∈ lb → i < (devColors.getD b []).length →
      (∀ b2, b2 ∈ lb → b2 ≠ b →
        ¬(t.blocks.getD b2 0 ≤ t.blocks.getD b 0 + i ∧
          t.blocks.getD b 0 + i < t.blocks.getD b2 0 + (devColors.getD b2 []).length)) →
      (writeAllBlocks devColors lb t).cell (t.blocks.getD b 0 + i) =
        ⟨((devColors.getD b []).getD i default).red,
         ((devColors.getD b []).getD i default).green,
         ((devColors.getD b []).getD i default).blue, 255⟩) := by
  induction lb with
  | nil =>
    intro t h
    exact ⟨rfl, rfl, h, fun j _ => rfl, fun b i hb => absurd hb (List.not_mem_nil b)⟩
  | cons hd rest ih =>
    intro t h
    obtain ⟨wb, wn, ws, wc⟩ := writeBlockColors_char hd (devColors.getD hd []) t h
    obtain ⟨ib, inb, isb, ipres, ihit⟩ :=
      ih (writeBlockColors hd (devColors.getD hd []) t) ws
    have hres : writeAllBlocks devColors (hd :: rest) t =
        writeAllBlocks devColors rest (writeBlockColors hd (devColors.getD hd []) t) := rfl
    refine ⟨?_, ?_, ?_, ?_, ?_⟩
    · rw [hres, ib, wb]
    · rw [hres, inb, wn]
    · rw [hres]; exact isb
    · intro j hj
      rw [hres]
      have hpres := ipres j (by
        intro b hb
        rw [wb]
        exact hj b (List.mem_cons_of_mem hd hb))
      rw [hpres, wc j, if_neg (hj hd (List.mem_cons_self hd rest))]
    · intro b i hb hi hdisj
      rw [hres]
      by_cases hbr : b ∈ rest
      · have hdisj2 : ∀ b2, b2 ∈ rest → b2 ≠ b →
            ¬((writeBlockColors hd (devColors.getD hd []) t).blocks.getD b2 0 ≤
                (writeBlockColors hd (devColors.getD hd []) t).blocks.getD b 0 + i ∧
              (writeBlockColors hd (devColors.getD hd []) t).blocks.getD b 0 + i <
                (writeBlockColors hd (devColors.getD hd []) t).blocks.getD b2 0 +
                  (devColors.getD b2 []).length) := by
          intro b2 hb2 hne
          rw [wb]
          exact hdisj b2 (List.mem_cons_of_mem hd hb2) hne
        have hhit := ihit b i hbr hi hdisj2
        rw [wb] at hhit
        exact hhit
      · have hbhd : b = hd := by
          rcases List.mem_cons.mp hb with h1 | h1
          · exact h1
          · exact absurd h1 hbr
        subst hbhd
        have hval : (writeBlockColors b (devColors.getD b []) t).cell
            (t.blocks.getD b 0 + i) =
            ⟨((devColors.getD b []).getD i default).red,
             ((devColors.getD b []).getD i default).green,
             ((devColors.getD b []).getD i default).blue, 255⟩ := by
          rw [wc, if_pos (by omega)]
          have hsub : t.blocks.getD b 0 + i - t.blocks.getD b 0 = i := by omega
          rw [hsub]
        have hpres := ipres (t.blocks.getD b 0 + i) (by
          intro b2 hb2
          rw [wb]
          have hne : b2 ≠ b := fun hcon => hbr (hcon ▸ hb2)
          exact hdisj b2 (List.mem_cons_of_mem b hb2) hne)
        rw [hpres, hval]

/-- C8: before the periodic phase, run reads the full device state: for a
render target constructed for the device layout, after getDeviceState
every cell of each block holds the red, green and blue channels of the
color the device returned for that key, with the alpha channel forced to
the fully opaque value 255; and when the initial read raises a device
error, run logs exactly that error and returns without disabling the
device timeout and without starting the periodic phase. -/
theorem getDeviceState_baseline (block_sizes : List Nat) (mem : Nat → RGBAColor)
    (blocks : List KeyBlock) (devColors : List (List DevColor))
    (hov : totalColorsSpec 0 block_sizes + 7 < W64)
    (hlen : blocks.length = block_sizes.length)
    (hcols : ∀ b, b < blocks.length → (devColors.getD b []).length = block_sizes.getD b 0) :
    (∀ b i, b < blocks.length → i < (devColors.getD b []).length →
      (getDeviceState blocks devColors (mkRenderTarget block_sizes mem)).get b i =
        ⟨((devColors.getD b []).getD i default).red,
         ((devColors.getD b []).getD i default).green,
         ((devColors.getD b []).getD i default).blue, 255⟩) ∧
    (∀ e rounds, runLoop (some e) rounds = some ⟨[describeDevError e], false, 0, 0⟩) := by
  constructor
  · intro b i hb hi
    have hsome : (mkRenderTarget block_sizes mem).colors.isSome = true := rfl
    obtain ⟨ab, an, as2, apres, ahit⟩ :=
      writeAllBlocks_char devColors (List.range blocks.length)
        (mkRenderTarget block_sizes mem) hsome
    have hoff : (mkRenderTarget block_sizes mem).blocks = offsetsSpec 0 block_sizes :=
      offsets_eq_spec block_sizes 0 hov
    have hdisj : ∀ b2, b2 ∈ List.range blocks.length → b2 ≠ b →
        ¬((mkRenderTarget block_sizes mem).blocks.getD b2 0 ≤
            (mkRenderTarget block_sizes mem).blocks.getD b 0 + i ∧
          (mkRenderTarget block_sizes mem).blocks.getD b 0 + i <
            (mkRenderTarget block_sizes mem).blocks.getD b2 0 +
              (devColors.getD b2 []).length) := by
      intro b2 hb2 hne
      have hb2lt : b2 < blocks.length := List.mem_range.mp hb2
      rw [hoff, hcols b2 hb2lt]
      have hblt : b < block_sizes.length := hlen ▸ hb
      have hb2lt2 : b2 < block_sizes.length := hlen ▸ hb2lt
      have hilt : i < block_sizes.getD b 0 := by rw [← hcols b hb]; exact hi
      rcases Nat.lt_or_ge b b2 with hlt | hge
      · have hgap := offsetsSpec_gap block_sizes 0 b b2 hlt hb2lt2
        intro hcon
        omega
      · have hlt2 : b2 < b := by omega
        have hgap := offsetsSpec_gap block_sizes 0 b2 b hlt2 hblt
        have hge2 := offsetsSpec_ge block_sizes 0 b hblt
        intro hcon
        omega
    have hhit := ahit b i (List.mem_range.mpr hb) hi hdisj
    show (getDeviceState blocks devColors (mkRenderTarget block_sizes mem)).cell
      ((getDeviceState blocks devColors (mkRenderTarget block_sizes mem)).blocks.getD b 0 + i) = _
    have hab : (getDeviceState blocks devColors (mkRenderTarget block_sizes mem)).blocks =
        (mkRenderTarget block_sizes mem).blocks := ab
    rw [hab]
    exact hhit
  · intro e rounds
    rfl

/-- Witness for C8: the baseline-read theorem applied to a concrete
one-block device with two keys and two returned colors. -/
theorem getDeviceState_baseline_witness :
    (∀ b i, b < blocksW.length → i < (devColorsW.getD b []).length →
      (getDeviceState blocksW devColorsW (mkRenderTarget [2] memZeroW)).get b i =
        ⟨((devColorsW.getD b []).getD i default).red,
         ((devColorsW.getD b []).getD i default).green,
         ((devColorsW.getD b []).getD i default).blue, 255⟩) ∧
    (∀ e rounds, runLoop (some e) rounds = some ⟨[describeDevError e], false, 0, 0⟩) :=
  getDeviceState_baseline [2] memZeroW blocksW devColorsW (by decide) rfl
    (by
      intro b hb
      cases b with
      | zero => rfl
      | succ n => simp [blocksW] at hb)

end Keyleds
